import Mathlib

/-!
Verification of the dependi decoration builder (`src/vscode/src/ui/decoration.ts`)
and the replace-command handlers (`replaceVersion` / `updateAll`).

The TypeScript sources are shallowly embedded as pure Lean functions.  The
semantic-version primitives (`checkVersion` from `semverUtils` and `validRange`
from the `semver` package) are external trusted functions per the spec and are
taken as parameters; the editor's effects (`edit.replace`, `document.save`) are
recorded in an explicit effect log; `MarkdownString` is a string accumulator
whose `appendText` escaping function is an external parameter.
-/

namespace Dependi

/-- A line/character position, mirroring the editor `Position` used by
`vscode.Range`. -/
structure Position where
  line : Nat
  character : Nat
deriving DecidableEq

/-- A source span, mirroring `vscode.Range` (the `end` field is named `stop`
because `end` is a Lean keyword). -/
structure Range where
  start : Position
  stop : Position
deriving DecidableEq

/-- `ReplaceItem` from `src/vscode/src/commands/replacers/replace`:
the payload of the replace-version command. -/
structure ReplaceItem where
  value : String
  range : Range
deriving DecidableEq

/-- `Item` from `src/vscode/src/core/Item`: one declared dependency occurrence. -/
structure Item where
  key : String
  value : Option String
  range : Range
  line : Nat
  endOfLine : Nat
  decoRange : Range
deriving DecidableEq

/-- `DecorationPreferences` from `src/vscode/src/ui/pref`.  `position` is the
string `"before"` or `"after"`. -/
structure DecorationPreferences where
  position : String
  compatibleText : String
  incompatibleText : String
  errorText : String
  vulnText : String
deriving DecidableEq

/-- `Language` from `src/vscode/src/core/Language`. -/
inductive Language where
  | Rust
  | Golang
  | JS
  | Python
  | Unknown
deriving DecidableEq

/-- The classification tag `"COMP" | "INCOMP" | "ERROR"` returned by
`decoration`. -/
inductive DecoType where
  | COMP
  | INCOMP
  | ERROR
deriving DecidableEq

/-- The vulnerability map `Map<string, string[]>`, embedded as an association
list (first binding of a key wins, as in a JS `Map` with distinct keys). -/
def VulnMap := List (String × List String)

/-- `Map.get` on an optional map with an optional key: `vuln?.get(k)`; a JS
`Map.get` on a missing (or `undefined`) key yields `undefined`. -/
def vulnGet (vuln : Option VulnMap) (key : Option String) : Option (List String) :=
  match vuln, key with
  | some m, some k => (m.find? (fun p => p.1 = k)).map (fun p => p.2)
  | _, _ => none

/-- `vscode.MarkdownString`: an accumulating markdown value plus the
`isTrusted` flag. -/
structure MarkdownString where
  value : String := ""
  isTrusted : Bool := false
deriving DecidableEq

/-- `MarkdownString.appendMarkdown`: appends raw markdown. -/
def MarkdownString.appendMarkdown (m : MarkdownString) (s : String) : MarkdownString :=
  { m with value := m.value ++ s }

/-- `MarkdownString.appendText`: appends text with markdown-sensitive
characters escaped.  The escaping itself is vscode-internal, so it is a
parameter `esc`. -/
def MarkdownString.appendText (m : MarkdownString) (esc : String → String)
    (s : String) : MarkdownString :=
  { m with value := m.value ++ esc s }

/-- JS `String.prototype.replace` with a plain-string pattern: replaces only
the first occurrence of `pat` (auxiliary recursion on the character list). -/
def jsReplaceFirstAux (pat repl : List Char) : List Char → List Char
  | [] => if pat = [] then repl else []
  | c :: cs =>
    if pat.isPrefixOf (c :: cs) then repl ++ (c :: cs).drop pat.length
    else c :: jsReplaceFirstAux pat repl cs

/-- JS `s.replace(pat, repl)` for a plain-string `pat`: first occurrence only. -/
def jsReplaceFirst (s pat repl : String) : String :=
  ⟨jsReplaceFirstAux pat.data repl.data s.data⟩

/-- JS truthiness of an optional string (`undefined` and `""` are falsy). -/
def jsTruthy (s : Option String) : Bool :=
  match s with
  | some v => v != ""
  | none => false

/-- Strict JS `!==` between `versions[0] : string | undefined` and
`maxSatisfying : string | null`: they are strictly equal only when both are
the same string. -/
def strictNe : Option String → Option String → Bool
  | some a, some b => a != b
  | _, _ => true

/-- `info.value.substr(1, info.value.length - 2)`: drop one leading and one
trailing character (JS `substr` clamps a negative length to the empty
string, which Nat subtraction models exactly). -/
def strip1 (s : String) : String :=
  ⟨(s.data.drop 1).take (s.data.length - 2)⟩

/-- Line 37 of `decoration.ts`: `item.value?.replace(",", "")` — the declared
value with the first comma occurrence removed. -/
def normalizedValue (item : Item) : Option String :=
  item.value.map (fun v => jsReplaceFirst v "," "")

/-- The quote character `"` (codepoint 34). -/
def quoteChar : Char := Char.ofNat 34

/-- The backslash character (codepoint 92). -/
def backslashChar : Char := Char.ofNat 92

/-- Decimal digit character for `k < 10`. -/
def digitChar (k : Nat) : Char := Char.ofNat (48 + k)

/-- Decimal representation of a natural number as a character list
(mirrors JS number-to-string for the non-negative integers used here). -/
def natToChars (n : Nat) : List Char :=
  if n < 10 then [digitChar n] else natToChars (n / 10) ++ [digitChar (n % 10)]
termination_by n
decreasing_by
  exact Nat.div_lt_self (by omega) (by omega)

/-- Decimal representation of a natural number as a string. -/
def natToStr (n : Nat) : String := ⟨natToChars n⟩

/-- JSON string-character escaping as performed by `JSON.stringify`
(the characters actually escaped that can arise here). -/
def jsonEscapeChar (c : Char) : List Char :=
  if c = quoteChar then [backslashChar, quoteChar]
  else if c = backslashChar then [backslashChar, backslashChar]
  else if c = '\n' then [backslashChar, 'n']
  else if c = '\r' then [backslashChar, 'r']
  else if c = '\t' then [backslashChar, 't']
  else [c]

/-- `JSON.stringify` of a string value. -/
def jsonString (s : String) : String :=
  ⟨quoteChar :: (s.data.map jsonEscapeChar).flatten ++ [quoteChar]⟩

/-- `JSON.stringify` of a `{line, character}` object (insertion order of the
object literal in `appendVersions`). -/
def stringifyPosition (p : Position) : String :=
  "\x7b\"line\":" ++ natToStr p.line ++ ",\"character\":" ++ natToStr p.character ++ "\x7d"

/-- `JSON.stringify` of a `{start, end}` range object. -/
def stringifyRange (r : Range) : String :=
  "\x7b\"start\":" ++ stringifyPosition r.start ++ ",\"end\":" ++ stringifyPosition r.stop ++ "\x7d"

/-- `JSON.stringify(replaceData)` for the `ReplaceItem` built in
`appendVersions` (fields in insertion order: `value`, then `range`). -/
def stringifyReplaceItem (ri : ReplaceItem) : String :=
  "\x7b\"value\":" ++ jsonString ri.value ++ ",\"range\":" ++ stringifyRange ri.range ++ "\x7d"

/-- The characters `encodeURI` leaves unescaped (unreserved and reserved sets
of the JS specification). -/
def uriUnescaped (c : Char) : Bool :=
  c.isAlpha || c.isDigit ||
    c ∈ ['-', '_', '.', '!', '~', '*', Char.ofNat 39, '(', ')',
         ';', '/', '?', ':', '@', '&', '=', '+', '$', ',', '#']

/-- UTF-8 bytes of a code point. -/
def utf8Bytes (n : Nat) : List Nat :=
  if n < 128 then [n]
  else if n < 2048 then [192 + n / 64, 128 + n % 64]
  else if n < 65536 then [224 + n / 4096, 128 + (n / 64) % 64, 128 + n % 64]
  else [240 + n / 262144, 128 + (n / 4096) % 64, 128 + (n / 64) % 64, 128 + n % 64]

/-- Uppercase hexadecimal digit for `k < 16`. -/
def hexDigitChar (k : Nat) : Char :=
  if k < 10 then Char.ofNat (48 + k) else Char.ofNat (55 + k)

/-- `%HH` percent-encoding of one byte (uppercase hex, as `encodeURI` emits). -/
def percentEncodeByte (b : Nat) : List Char :=
  ['%', hexDigitChar (b / 16), hexDigitChar (b % 16)]

/-- JS `encodeURI` applied to one character. -/
def encodeURIChar (c : Char) : List Char :=
  if uriUnescaped c then [c] else ((utf8Bytes c.toNat).map percentEncodeByte).flatten

/-- JS `encodeURI`. -/
def encodeURI (s : String) : String :=
  ⟨(s.data.map encodeURIChar).flatten⟩

namespace Configs

/-- Modelled from the spec: the identifier of the registered "replace version"
command (`Configs.REPLACE_VERSIONS` lives in `src/vscode/src/config`, which is
not under `src/`); its concrete value is irrelevant to every claim — both the
hover document and the command registration reference the same constant. -/
def REPLACE_VERSIONS : String := "dependi.replaceVersions"

end Configs

/-- `formatError` from `decoration.ts` lines 40-52: split the error on
newlines, drop empty segments, render each segment (trimmed, markdown-escaped)
as a bullet. -/
def formatError (esc : String → String) (error : String) : MarkdownString :=
  let error_parts := error.splitOn "\n"
  let markdown : MarkdownString := { value := "#### Errors ", isTrusted := false }
  let markdown := markdown.appendMarkdown "\n"
  (error_parts.filter (fun s => s != "")).foldl
    (fun md part => (((md.appendMarkdown "* ").appendText esc part.trim).appendMarkdown "\n"))
    markdown

/-- `getContentText` from `decoration.ts` lines 114-123. -/
def getContentText (decorationPreferences : DecorationPreferences) (type : DecoType) : String :=
  let contentText := decorationPreferences.compatibleText
  let contentText := if type = DecoType.INCOMP then decorationPreferences.incompatibleText else contentText
  let contentText := if type = DecoType.ERROR then decorationPreferences.errorText else contentText
  contentText

/-- `key.replace(/"/g, "")`: remove all double quotes (global regex). -/
def cleanKeyOf (key : String) : String :=
  ⟨key.data.filter (fun c => c ≠ quoteChar)⟩

/-- `getLinks` from `decoration.ts` lines 124-139. -/
def getLinks (lang : Language) (key : String) : String :=
  let cleanKey := cleanKeyOf key
  match lang with
  | Language.Rust =>
      " _( [View Crate](https://crates.io/crates/" ++ cleanKey ++
      ") | [Check Reviews](https://web.crev.dev/rust-reviews/crate/" ++ cleanKey ++ ") )_"
  | Language.Golang =>
      " _( [View Module](https://pkg.go.dev/" ++ cleanKey ++
      ") | [Check Docs](https://pkg.go.dev/" ++ cleanKey ++ "#section-documentation) )_"
  | Language.JS =>
      " _( [View Package](https://npmjs.com/package/" ++ cleanKey ++ ") )_"
  | Language.Python =>
      " _( [View Package](https://pypi.org/project/" ++ cleanKey ++ ") )_"
  | Language.Unknown => ""

/-- `getDocsLink` from `decoration.ts` lines 141-154. -/
def getDocsLink (lang : Language) (key : String) (version : String) : String :=
  match lang with
  | Language.Rust =>
      "[(docs)](https://docs.rs/crate/" ++ key ++ "/" ++ version ++ ")"
  | Language.Golang =>
      "[(docs)](https://pkg.go.dev/" ++ key ++ "@" ++ version ++ "#section-documentation)"
  | Language.JS =>
      "[(docs)](https://npmjs.com/package/" ++ key ++ "/v/" ++ version ++ ")"
  | Language.Python =>
      "[(docs)](https://pypi.org/project/" ++ key ++ "/" ++ version ++ ")"
  | Language.Unknown => ""

/-- One OSV advisory line of the vulnerabilities section. -/
def osvLine (a : String) : String :=
  " - [" ++ a ++ "](https://osv.dev/vulnerability/" ++ a ++ ") \n"

/-- `appendVulnerabilities` from `decoration.ts` lines 156-167. -/
def appendVulnerabilities (hoverMessage : MarkdownString) (vuln : Option VulnMap)
    (version : Option String) : MarkdownString :=
  let v := vulnGet vuln version
  match v with
  | some l =>
    if l ≠ [] then
      (hoverMessage.appendMarkdown "#### Vulnerabilities (Current)").appendMarkdown
        ("\n" ++ String.join (l.map osvLine))
    else hoverMessage
  | none => hoverMessage

/-- The `ReplaceItem` built for one version bullet in `appendVersions`
(lines 174-180): the clicked version string plus the item's range rebuilt
coordinate by coordinate. -/
def bulletPayload (item : Item) (version : String) : ReplaceItem :=
  { value := version,
    range := { start := { line := item.range.start.line, character := item.range.start.character },
               stop := { line := item.range.stop.line, character := item.range.stop.character } } }

/-- The per-bullet vulnerability-count suffix of line 185:
`v?.length ? vulnText-with-count : ""`. -/
def bulletVulnSuffix (decorationPreferences : DecorationPreferences) (vuln : Option VulnMap)
    (version : String) : String :=
  match vulnGet vuln (some version) with
  | some l =>
    if l ≠ [] then jsReplaceFirst decorationPreferences.vulnText "${count}" (natToStr l.length)
    else ""
  | none => ""

/-- The command string built for the version at index `i` in the loop body of
`appendVersions` (lines 172-186). -/
def versionBullet (item : Item) (maxSatisfying : String) (vuln : Option VulnMap)
    (decorationPreferences : DecorationPreferences) (lang : Language)
    (i : Nat) (version : String) : String :=
  let replaceData := bulletPayload item version
  let isCurrent := version = maxSatisfying
  let encoded := encodeURI (stringifyReplaceItem replaceData)
  let docs := if i = 0 ∨ isCurrent then getDocsLink lang item.key version else ""
  let vulnText := bulletVulnSuffix decorationPreferences vuln version
  (if isCurrent then "**" else "") ++ "[" ++ version ++ "](command:" ++
    Configs.REPLACE_VERSIONS ++ "?" ++ encoded ++ ")" ++ docs ++
    (if isCurrent then "**" else "") ++ "  " ++ vulnText

/-- `appendVersions` from `decoration.ts` lines 170-190: the indexed for-loop
appending `"\n * "` plus the command string for every version. -/
def appendVersions (hoverMessage : MarkdownString) (versions : List String) (item : Item)
    (maxSatisfying : String) (vuln : Option VulnMap)
    (decorationPreferences : DecorationPreferences) (lang : Language) : MarkdownString :=
  versions.enum.foldl
    (fun h p =>
      (h.appendMarkdown "\n * ").appendMarkdown
        (versionBullet item maxSatisfying vuln decorationPreferences lang p.1 p.2))
    hoverMessage

/-- The decoration target range (line 106): `item.decoRange` when the
configured position is `"after"`, else the whole-line range. -/
def decoTargetRange (decorationPreferences : DecorationPreferences) (item : Item) : Range :=
  if decorationPreferences.position = "after" then item.decoRange
  else { start := { line := item.line, character := 0 },
         stop := { line := item.line, character := item.endOfLine } }

/-- The observable result of one `decoration` call: the decoration options
(target range, hover message, inline content text), the classification tag,
and the effect log (ranges overwritten by `editor.edit` and the number of
`document.save` requests). -/
structure DecorationResult where
  range : Range
  hoverMessage : MarkdownString
  contentText : String
  type : DecoType
  edits : List (Range × String)
  saves : Nat
deriving DecidableEq

/-- `decoration` from `decoration.ts` lines 27-111.  `checkVersion` (from
`semverUtils`) and `validRange` (from the `semver` package) are external
trusted functions and appear as parameters, as does the `appendText`
escaping `esc`.  `validRange`'s JS truthiness is modelled as `Bool`. -/
def decoration (esc : String → String)
    (checkVersion : Option String → List String → Bool × Option String)
    (validRange : Option String → Bool)
    (item : Item) (versions : List String)
    (decorationPreferences : DecorationPreferences) (lang : Language)
    (vuln : Option VulnMap) (error : Option String) : DecorationResult :=
  let version := normalizedValue item
  let satisfies := (checkVersion version versions).1
  let maxSatisfying := (checkVersion version versions).2
  if jsTruthy error then
    { range := decoTargetRange decorationPreferences item,
      hoverMessage := formatError esc (error.getD ""),
      contentText := "",
      type := DecoType.ERROR,
      edits := [],
      saves := 0 }
  else
    let hoverMessage : MarkdownString := {}
    let hoverMessage := appendVulnerabilities hoverMessage vuln version
    let hoverMessage := hoverMessage.appendMarkdown "#### Versions"
    let hoverMessage := hoverMessage.appendMarkdown (getLinks lang item.key)
    let hoverMessage := { hoverMessage with isTrusted := true }
    let hoverMessage :=
      appendVersions hoverMessage versions item (maxSatisfying.getD "") vuln
        decorationPreferences lang
    let edits :=
      if version = some "?" then [(item.range, strip1 (versions.headD ""))] else []
    let saves := if version = some "?" then 1 else 0
    let type :=
      if ¬ validRange version then DecoType.ERROR
      else if strictNe versions.head? maxSatisfying then
        (if satisfies then DecoType.COMP else DecoType.INCOMP)
      else DecoType.COMP
    let contentText :=
      jsReplaceFirst (getContentText decorationPreferences type) "${version}"
        (versions.headD "undefined")
    let vulnerabilities := vulnGet vuln version
    let contentText :=
      match vulnerabilities with
      | some l =>
        if l.length > 0 then
          contentText ++ "\t" ++ jsReplaceFirst decorationPreferences.vulnText "${count}" (natToStr l.length)
        else contentText
      | none => contentText
    { range := decoTargetRange decorationPreferences item,
      hoverMessage := hoverMessage,
      contentText := contentText,
      type := type,
      edits := edits,
      saves := saves }

/-- The process-wide `status` object from `replace.ts`: the re-entrancy flag
plus the accumulated replace queue. -/
structure Status where
  inProgress : Bool
  replaceItems : List ReplaceItem
deriving DecidableEq

/-- The editor effect log shared by the command handlers: the sequence of
`edit.replace(range, value)` calls and the number of `workspace.save`
requests. -/
structure EditorLog where
  edits : List (Range × String)
  saves : Nat
deriving DecidableEq

/-- `replaceVersion` handler from the replacer command file (lines 11-34):
guarded single replace.  Note that `workspace.save` is issued outside the
guard, on every invocation. -/
def replaceVersion (hasEditor : Bool) (info : Option ReplaceItem)
    (st : Status) (log : EditorLog) : Status × EditorLog :=
  let guarded :=
    match info with
    | some inf =>
      if hasEditor ∧ ¬ st.inProgress then
        let range : Range :=
          { start := { line := inf.range.start.line, character := inf.range.start.character },
            stop := { line := inf.range.stop.line, character := inf.range.stop.character } }
        ({ st with inProgress := false },
         { log with edits := log.edits ++ [(range, inf.value)] })
      else (st, log)
    | none => (st, log)
  (guarded.1, { guarded.2 with saves := guarded.2.saves + 1 })

/-- The body of the `for (let i = length - 1; i > -1; i--)` loop of
`updateAll`: the replace calls issued with the counter starting at `n - 1`
(`applyLoop items n` is the trace of the loop run down from index `n - 1`). -/
def applyLoop (items : List ReplaceItem) : Nat → List (Range × String)
  | 0 => []
  | Nat.succ i =>
    (match items.get? i with
     | some r => [(r.range, r.value)]
     | none => []) ++ applyLoop items i

/-- `updateAll` handler (lines 44-77 of the commands file): guarded batch
replace in reverse accumulation order followed by a single save. -/
def updateAll (hasEditor : Bool) (st : Status) (log : EditorLog) : Status × EditorLog :=
  if hasEditor ∧ ¬ st.inProgress ∧ st.replaceItems.length > 0 then
    ({ st with inProgress := false },
     { edits := log.edits ++ applyLoop st.replaceItems st.replaceItems.length,
       saves := log.saves + 1 })
  else (st, log)

/-- Modelled from the spec: hex digit value used by percent-decoding. -/
def hexVal (c : Char) : Option Nat :=
  if 48 ≤ c.toNat ∧ c.toNat ≤ 57 then some (c.toNat - 48)
  else if 65 ≤ c.toNat ∧ c.toNat ≤ 70 then some (c.toNat - 55)
  else if 97 ≤ c.toNat ∧ c.toNat ≤ 102 then some (c.toNat - 87)
  else none

/-- Modelled from the spec: URI percent-decoding of the command payload as the
command dispatcher performs before handing `ReplaceItem` to the handler (the
decoder itself is editor-internal, outside `src/`). -/
def percentDecode : List Char → List Char
  | [] => []
  | c :: rest =>
    if c = '%' then
      match rest with
      | h1 :: h2 :: rest2 =>
        (match hexVal h1, hexVal h2 with
         | some a, some b => Char.ofNat (16 * a + b) :: percentDecode rest2
         | _, _ => c :: percentDecode (h1 :: h2 :: rest2))
      | [h1] => c :: percentDecode [h1]
      | [] => c :: percentDecode []
    else c :: percentDecode rest
termination_by s => s.length
decreasing_by
  all_goals simp
  omega

/-- Unescaping of one JSON string escape character. -/
def unescapeChar (e : Char) : Char :=
  if e = 'n' then '\n' else if e = 'r' then '\r' else if e = 't' then '\t' else e

/-- Modelled from the spec: JSON string-body parser (consumes up to and
including the closing quote). -/
def parseJsonStringAux : List Char → Option (String × List Char)
  | [] => none
  | c :: rest =>
    if c = quoteChar then some ("", rest)
    else if c = backslashChar then
      match rest with
      | [] => none
      | e :: rest2 =>
        match parseJsonStringAux rest2 with
        | some (s, r) => some (⟨unescapeChar e :: s.data⟩, r)
        | none => none
    else
      match parseJsonStringAux rest with
      | some (s, r) => some (⟨c :: s.data⟩, r)
      | none => none

/-- Modelled from the spec: JSON number parser (non-negative integers, as the
line/character coordinates are). -/
def parseNat (s : List Char) : Option (Nat × List Char) :=
  let ds := s.takeWhile Char.isDigit
  if ds = [] then none
  else some (ds.foldl (fun a c => 10 * a + (c.toNat - 48)) 0, s.dropWhile Char.isDigit)

/-- Modelled from the spec: consume an expected literal. -/
def parseLit (pre : String) (s : List Char) : Option (List Char) :=
  if pre.data.isPrefixOf s then some (s.drop pre.data.length) else none

/-- Modelled from the spec: JSON-parse of the `{value, range: {start: {line,
character}, end: {line, character}}}` payload object (the spec fixes the
field shape in §4.2). -/
def parsePayload (cs : List Char) : Option ReplaceItem := do
  let cs ← parseLit "\x7b\"value\":\"" cs
  let (value, cs) ← parseJsonStringAux cs
  let cs ← parseLit ",\"range\":\x7b\"start\":\x7b\"line\":" cs
  let (sl, cs) ← parseNat cs
  let cs ← parseLit ",\"character\":" cs
  let (sc, cs) ← parseNat cs
  let cs ← parseLit "\x7d,\"end\":\x7b\"line\":" cs
  let (el, cs) ← parseNat cs
  let cs ← parseLit ",\"character\":" cs
  let (ec, cs) ← parseNat cs
  let cs ← parseLit "\x7d\x7d\x7d" cs
  if cs = [] then
    pure { value := value,
           range := { start := { line := sl, character := sc },
                      stop := { line := el, character := ec } } }
  else none

/-- Modelled from the spec: decoding of the embedded command payload —
URI-decode then JSON-parse (the decoding happens in the editor's command
dispatch, outside `src/`). -/
def decodePayload (s : String) : Option ReplaceItem :=
  parsePayload (percentDecode s.data)

/-- "starts with `**`": the bullet is rendered bold. -/
def startsBold (s : String) : Bool :=
  decide (s.data.take 2 = ['*', '*'])

/-- The spec's words for the value normalization ("stripping any trailing
comma, and only a trailing comma"), for comparison with `normalizedValue`. -/
def stripTrailingCommaSpec (s : String) : String :=
  if s.data.getLast? = some ',' then ⟨s.data.dropLast⟩ else s

/-- The markdown text `appendVulnerabilities` contributes. -/
def vulnSectionStr (vuln : Option VulnMap) (version : Option String) : String :=
  match vulnGet vuln version with
  | some l =>
    if l ≠ [] then "#### Vulnerabilities (Current)" ++ "\n" ++ String.join (l.map osvLine)
    else ""
  | none => ""

end Dependi

namespace Dependi

/-! ### Shared concrete fixtures for witnesses and counterexamples -/

/-- A concrete dependency item declaring `"^1.0.0"`. -/
def itemStd : Item :=
  { key := "serde", value := some "^1.0.0",
    range := { start := { line := 3, character := 10 }, stop := { line := 3, character := 18 } },
    line := 3, endOfLine := 20,
    decoRange := { start := { line := 3, character := 20 }, stop := { line := 3, character := 20 } } }

/-- The same item with the placeholder value `"?"`. -/
def itemQStd : Item := { itemStd with value := some "?" }

/-- The same item declaring `"1,2"` (a comma in the middle). -/
def itemCommaStd : Item := { itemStd with value := some "1,2" }

/-- The same item declaring exactly `"1.5.0"`. -/
def item15Std : Item := { itemStd with value := some "1.5.0" }

/-- Concrete presentation preferences. -/
def prefsStd : DecorationPreferences :=
  { position := "after", compatibleText := "ok ${version}",
    incompatibleText := "bad ${version}", errorText := "err ${version}",
    vulnText := "vuln ${count}" }

/-- `checkVersion` instantiated per the spec scenario: constraints `"^1.0.0"`
and `"1.5.0"` against `["2.0.0", "1.5.0", "1.0.0"]` are satisfied with maximum
satisfying version `"1.5.0"`. -/
def cvStd : Option String → List String → Bool × Option String :=
  fun _ _ => (true, some "1.5.0")

/-- `checkVersion` for an invalid constraint: not satisfied, no maximum. -/
def cvNoneStd : Option String → List String → Bool × Option String :=
  fun _ _ => (false, none)

/-- `validRange` instantiated on the concrete constraints used here:
`"^1.0.0"`, `"1.5.0"`, `"1.2.3"` are valid ranges; `"?"` (and anything else)
is not. -/
def vrStd : Option String → Bool :=
  fun ov => decide (ov = some "^1.0.0") || decide (ov = some "1.5.0") ||
    decide (ov = some "1.2.3")

/-- A vulnerability map with two advisories for version `"1.5.0"`. -/
def vuln15Std : VulnMap := [("1.5.0", ["OSV-1", "OSV-2"])]

/-- A queued replace instruction `A` (early range). -/
def riAStd : ReplaceItem :=
  { value := "9", range := { start := { line := 5, character := 0 }, stop := { line := 5, character := 10 } } }

/-- A queued replace instruction `B` (later range). -/
def riBStd : ReplaceItem :=
  { value := "8", range := { start := { line := 20, character := 0 }, stop := { line := 20, character := 25 } } }

/-- A session state with a replace already in progress. -/
def stBusyStd : Status := { inProgress := true, replaceItems := [] }

/-- An empty editor effect log. -/
def logStd : EditorLog := { edits := [], saves := 0 }

/-! ### The replace-command handlers: C2 and C6 -/

/-- The loop of `updateAll` run over the whole queue replays it reversed. -/
theorem applyLoop_eq_reverse (items : List ReplaceItem) (n : Nat) (h : n ≤ items.length) :
    applyLoop items n = ((items.take n).reverse).map (fun r => (r.range, r.value)) := by
  induction n with
  | zero => simp [applyLoop]
  | succ k ih =>
    have hk : k < items.length := by omega
    have hg : items.get? k = some items[k] := by
      rw [List.get?_eq_getElem?]
      exact List.getElem?_eq_getElem hk
    have ht : List.take (k + 1) items = List.take k items ++ [items[k]] := by
      rw [List.take_succ, List.getElem?_eq_getElem hk]
      rfl
    rw [applyLoop, hg, ih (by omega), ht, List.reverse_append, List.map_append]
    rfl

/-- C2: with the guard clear and a non-empty queue, `updateAll` applies the
queued instructions in reverse accumulation order and saves exactly once. -/
theorem C2_updateAll_reverse_order (st : Status) (log : EditorLog)
    (hip : st.inProgress = false) (hne : st.replaceItems ≠ []) :
    updateAll true st log =
      ({ st with inProgress := false },
       { edits := log.edits ++ st.replaceItems.reverse.map (fun r => (r.range, r.value)),
         saves := log.saves + 1 }) := by
  have hlen : st.replaceItems.length > 0 := List.length_pos.mpr hne
  have hcond : (true = true ∧ ¬ st.inProgress ∧ st.replaceItems.length > 0) := by
    refine ⟨rfl, ?_, hlen⟩
    simp [hip]
  rw [updateAll, if_pos hcond, applyLoop_eq_reverse st.replaceItems st.replaceItems.length (le_refl _),
    List.take_length]

/-- C2 witness: for the queue `[A, B]` the handler applies `B` before `A` and
saves once. -/
theorem C2_witness :
    updateAll true { inProgress := false, replaceItems := [riAStd, riBStd] } logStd =
      ({ inProgress := false, replaceItems := [riAStd, riBStd] },
       { edits := [(riBStd.range, "8"), (riAStd.range, "9")], saves := 1 }) := by
  have h := C2_updateAll_reverse_order
    { inProgress := false, replaceItems := [riAStd, riBStd] } logStd rfl (by decide)
  rw [h]
  decide

/-- C6 counterexample: with the re-entrancy flag set, the single-replace
handler is not a complete no-op — it still issues a document save (the
`workspace.save` call sits outside the guard). -/
theorem C6_counterexample :
    (replaceVersion true (some riAStd) stBusyStd logStd).2.saves ≠ logStd.saves := by
  decide

/-- C6 amended: with the re-entrancy flag set, no mutation is performed and
nothing is queued (state and edits unchanged), but a save request is still
issued on every invocation. -/
theorem C6_guard_drop (hasEditor : Bool) (info : Option ReplaceItem) (st : Status)
    (log : EditorLog) (hip : st.inProgress = true) :
    replaceVersion hasEditor info st log = (st, { log with saves := log.saves + 1 }) := by
  cases info with
  | none => rfl
  | some inf => simp [replaceVersion, hip]

/-- C6 witness: a concrete dropped invocation still performing its save. -/
theorem C6_witness :
    replaceVersion true (some riAStd) stBusyStd logStd =
      (stBusyStd, { logStd with saves := logStd.saves + 1 }) :=
  C6_guard_drop true (some riAStd) stBusyStd logStd rfl

end Dependi

namespace Dependi

/-! ### Projection lemmas for `decoration` -/

/-- With no error, the effectful edits are exactly the `"?"` auto-fill. -/
theorem decoration_edits_none (esc : String → String)
    (cv : Option String → List String → Bool × Option String) (vr : Option String → Bool)
    (item : Item) (versions : List String) (prefs : DecorationPreferences) (lang : Language)
    (vuln : Option VulnMap) :
    (decoration esc cv vr item versions prefs lang vuln none).edits =
      (if normalizedValue item = some "?" then [(item.range, strip1 (versions.headD ""))] else []) :=
  rfl

/-- With no error, a save is requested exactly for the `"?"` auto-fill. -/
theorem decoration_saves_none (esc : String → String)
    (cv : Option String → List String → Bool × Option String) (vr : Option String → Bool)
    (item : Item) (versions : List String) (prefs : DecorationPreferences) (lang : Language)
    (vuln : Option VulnMap) :
    (decoration esc cv vr item versions prefs lang vuln none).saves =
      (if normalizedValue item = some "?" then 1 else 0) :=
  rfl

/-- With no error, the classification is the literal decision sequence of
lines 88-93. -/
theorem decoration_type_none (esc : String → String)
    (cv : Option String → List String → Bool × Option String) (vr : Option String → Bool)
    (item : Item) (versions : List String) (prefs : DecorationPreferences) (lang : Language)
    (vuln : Option VulnMap) :
    (decoration esc cv vr item versions prefs lang vuln none).type =
      (if ¬ vr (normalizedValue item) then DecoType.ERROR
       else if strictNe versions.head? (cv (normalizedValue item) versions).2 then
         (if (cv (normalizedValue item) versions).1 then DecoType.COMP else DecoType.INCOMP)
       else DecoType.COMP) :=
  rfl

end Dependi

namespace Dependi

/-- With no error, the inline content text: the state template substituted,
plus the vulnerability suffix keyed by the normalized declared value. -/
theorem decoration_contentText_none (esc : String → String)
    (cv : Option String → List String → Bool × Option String) (vr : Option String → Bool)
    (item : Item) (versions : List String) (prefs : DecorationPreferences) (lang : Language)
    (vuln : Option VulnMap) :
    (decoration esc cv vr item versions prefs lang vuln none).contentText =
      (match vulnGet vuln (normalizedValue item) with
       | some l =>
         if l.length > 0 then
           jsReplaceFirst
             (getContentText prefs (decoration esc cv vr item versions prefs lang vuln none).type)
             "${version}" (versions.headD "undefined")
             ++ "\t" ++ jsReplaceFirst prefs.vulnText "${count}" (natToStr l.length)
         else
           jsReplaceFirst
             (getContentText prefs (decoration esc cv vr item versions prefs lang vuln none).type)
             "${version}" (versions.headD "undefined")
       | none =>
         jsReplaceFirst
           (getContentText prefs (decoration esc cv vr item versions prefs lang vuln none).type)
           "${version}" (versions.headD "undefined")) :=
  rfl

/-- With no error, the hover message is built by `appendVulnerabilities`, the
`#### Versions` heading, the quick links, trusting, then `appendVersions`. -/
theorem decoration_hover_none (esc : String → String)
    (cv : Option String → List String → Bool × Option String) (vr : Option String → Bool)
    (item : Item) (versions : List String) (prefs : DecorationPreferences) (lang : Language)
    (vuln : Option VulnMap) :
    (decoration esc cv vr item versions prefs lang vuln none).hoverMessage =
      appendVersions
        { ((appendVulnerabilities {} vuln (normalizedValue item)).appendMarkdown
            "#### Versions").appendMarkdown (getLinks lang item.key) with isTrusted := true }
        versions item (((cv (normalizedValue item) versions).2).getD "") vuln prefs lang :=
  rfl

/-- With a non-empty error string, `decoration` bypasses everything: `ERROR`
classification, `formatError` hover, empty content text, no effects. -/
theorem decoration_some_error (esc : String → String)
    (cv : Option String → List String → Bool × Option String) (vr : Option String → Bool)
    (item : Item) (versions : List String) (prefs : DecorationPreferences) (lang : Language)
    (vuln : Option VulnMap) (e : String) (he : e ≠ "") :
    decoration esc cv vr item versions prefs lang vuln (some e) =
      { range := decoTargetRange prefs item,
        hoverMessage := formatError esc e,
        contentText := "",
        type := DecoType.ERROR,
        edits := [],
        saves := 0 } := by
  have ht : jsTruthy (some e) = true := by
    simp [jsTruthy, he]
  rw [decoration, ht]
  simp

/-! ### C9: value normalization -/

/-- If `','` does not occur, `replace(",", "")` leaves the list unchanged. -/
theorem jsReplaceFirstAux_no_comma (l : List Char) (h : ',' ∉ l) :
    jsReplaceFirstAux [','] [] l = l := by
  induction l with
  | nil => simp [jsReplaceFirstAux]
  | cons c cs ih =>
    have hc : c ≠ ',' := fun hh => h (hh ▸ List.mem_cons_self c cs)
    have hp : ([','].isPrefixOf (c :: cs)) = false := by
      simp [List.isPrefixOf]
      exact fun hh => absurd hh.symm hc
    rw [jsReplaceFirstAux, hp]
    simp [ih (fun hm => h (List.mem_cons_of_mem c hm))]

/-- A single trailing comma is stripped by `replace(",", "")`. -/
theorem jsReplaceFirstAux_trailing (w : List Char) (h : ',' ∉ w) :
    jsReplaceFirstAux [','] [] (w ++ [',']) = w := by
  induction w with
  | nil => simp [jsReplaceFirstAux, List.isPrefixOf]
  | cons c cs ih =>
    have hc : c ≠ ',' := fun hh => h (hh ▸ List.mem_cons_self c cs)
    have hp : ([','].isPrefixOf (c :: (cs ++ [',']))) = false := by
      simp [List.isPrefixOf]
      exact fun hh => absurd hh.symm hc
    rw [List.cons_append, jsReplaceFirstAux, hp]
    simp [ih (fun hm => h (List.mem_cons_of_mem c hm))]

/-- C9 counterexample: for the declared value `"1,2"` (comma not trailing) the
code removes the first comma anyway, diverging from the spec's
trailing-comma-only normalization. -/
theorem C9_counterexample :
    normalizedValue itemCommaStd ≠ itemCommaStd.value.map stripTrailingCommaSpec := by
  decide

/-- C9 amended: the declared value used by classification is `item.value`
with the **first** comma occurrence removed: a value without commas is used
unchanged, and a value whose only comma is trailing has exactly that comma
stripped. -/
theorem C9_normalization (item : Item) (v : String) (hv : item.value = some v) :
    normalizedValue item = some (jsReplaceFirst v "," "") ∧
    (',' ∉ v.data → normalizedValue item = some v) ∧
    (∀ w : List Char, v.data = w ++ [','] → ',' ∉ w →
      normalizedValue item = some (⟨w⟩ : String)) := by
  refine ⟨by rw [normalizedValue, hv]; rfl, ?_, ?_⟩
  · intro hnc
    rw [normalizedValue, hv]
    have : jsReplaceFirst v "," "" = v := by
      show (⟨jsReplaceFirstAux (",").data "".data v.data⟩ : String) = v
      have hd : (",").data = [','] := rfl
      have hd2 : ("" : String).data = [] := rfl
      rw [hd, hd2, jsReplaceFirstAux_no_comma v.data hnc]
    simp [this]
  · intro w hw hnc
    rw [normalizedValue, hv]
    have : jsReplaceFirst v "," "" = (⟨w⟩ : String) := by
      show (⟨jsReplaceFirstAux (",").data "".data v.data⟩ : String) = ⟨w⟩
      have hd : (",").data = [','] := rfl
      have hd2 : ("" : String).data = [] := rfl
      rw [hd, hd2, hw, jsReplaceFirstAux_trailing w hnc]
    simp [this]

/-- An item declaring `"1.0.0,"` (trailing comma, as in an array-valued
manifest entry). -/
def itemTrailStd : Item := { itemStd with value := some "1.0.0," }

/-- C9 witness: the trailing comma of `"1.0.0,"` is stripped. -/
theorem C9_witness : normalizedValue itemTrailStd = some "1.0.0" := by
  have h := (C9_normalization itemTrailStd "1.0.0," rfl).2.2 ("1.0.0".data)
    (by decide) (by decide)
  exact h

end Dependi

namespace Dependi

/-! ### C4 and C5: the placeholder auto-fill -/

/-- The placeholder value normalizes to itself. -/
theorem normalizedValue_q (item : Item) (hq : item.value = some "?") :
    normalizedValue item = some "?" := by
  rw [normalizedValue, hq]
  rfl

/-- Shared helper: the `"?"` auto-fill effects (one edit, one save). -/
theorem autofill_effects (esc : String → String)
    (cv : Option String → List String → Bool × Option String) (vr : Option String → Bool)
    (item : Item) (versions : List String) (prefs : DecorationPreferences) (lang : Language)
    (vuln : Option VulnMap) (hq : item.value = some "?") :
    (decoration esc cv vr item versions prefs lang vuln none).edits =
        [(item.range, strip1 (versions.headD ""))] ∧
    (decoration esc cv vr item versions prefs lang vuln none).saves = 1 := by
  have hnv := normalizedValue_q item hq
  constructor
  · rw [decoration_edits_none, if_pos hnv]
  · rw [decoration_saves_none, if_pos hnv]

/-- C4: for a declared value `"?"` with no error, the builder emits exactly
one mutation overwriting `item.range` with `versions[0]` stripped of one
leading and one trailing character, plus exactly one save request. -/
theorem C4_autofill (esc : String → String)
    (cv : Option String → List String → Bool × Option String) (vr : Option String → Bool)
    (item : Item) (versions : List String) (prefs : DecorationPreferences) (lang : Language)
    (vuln : Option VulnMap) (hq : item.value = some "?") :
    (decoration esc cv vr item versions prefs lang vuln none).edits =
        [(item.range, strip1 (versions.headD ""))] ∧
    (decoration esc cv vr item versions prefs lang vuln none).saves = 1 :=
  autofill_effects esc cv vr item versions prefs lang vuln hq

/-- C4 witness: for `versions[0]` the quoted source literal `"1.2.3"`, the
auto-fill writes `1.2.3` and saves once. -/
theorem C4_witness :
    (decoration id cvNoneStd vrStd itemQStd ["\"1.2.3\""] prefsStd Language.Rust none none).edits
        = [(itemQStd.range, "1.2.3")] ∧
    (decoration id cvNoneStd vrStd itemQStd ["\"1.2.3\""] prefsStd Language.Rust none none).saves
        = 1 := by
  have h := C4_autofill id cvNoneStd vrStd itemQStd ["\"1.2.3\""] prefsStd Language.Rust none rfl
  refine ⟨?_, h.2⟩
  rw [h.1]
  decide

/-- C5 counterexample: with `versions[0] = "1.2.3"` a valid range (per the
`validRange` model `vrStd`) and declared value `"?"`, the classification is
still `ERROR` — the validity check is applied to the original `"?"`, not to
the auto-filled `versions[0]` (the inner `const version` on line 78 shadows
only inside the `if` block). -/
theorem C5_counterexample :
    vrStd (some "1.2.3") = true ∧
    (decoration id cvNoneStd vrStd itemQStd ["1.2.3"] prefsStd Language.Rust none none).type
      = DecoType.ERROR := by
  constructor
  · decide
  · decide

/-- C5 amended: the auto-fill is emitted alongside classification, but the
parse-validity check is applied to the original declared value `"?"` (which
`validRange` rejects), so the classification is `ERROR` regardless of
whether `versions[0]` parses. -/
theorem C5_placeholder_error (esc : String → String)
    (cv : Option String → List String → Bool × Option String) (vr : Option String → Bool)
    (item : Item) (versions : List String) (prefs : DecorationPreferences) (lang : Language)
    (vuln : Option VulnMap) (hq : item.value = some "?") (hvr : vr (some "?") = false) :
    (decoration esc cv vr item versions prefs lang vuln none).type = DecoType.ERROR ∧
    (decoration esc cv vr item versions prefs lang vuln none).edits =
        [(item.range, strip1 (versions.headD ""))] ∧
    (decoration esc cv vr item versions prefs lang vuln none).saves = 1 := by
  have hnv := normalizedValue_q item hq
  refine ⟨?_, (autofill_effects esc cv vr item versions prefs lang vuln hq).1,
    (autofill_effects esc cv vr item versions prefs lang vuln hq).2⟩
  rw [decoration_type_none, hnv, hvr]
  simp

/-- C5 witness for the amended statement: concrete placeholder item. -/
theorem C5_witness :
    (decoration id cvNoneStd vrStd itemQStd ["1.2.3"] prefsStd Language.Rust none none).type
        = DecoType.ERROR ∧
    (decoration id cvNoneStd vrStd itemQStd ["1.2.3"] prefsStd Language.Rust none none).edits
        = [(itemQStd.range, strip1 (["1.2.3"].headD ""))] ∧
    (decoration id cvNoneStd vrStd itemQStd ["1.2.3"] prefsStd Language.Rust none none).saves
        = 1 :=
  C5_placeholder_error id cvNoneStd vrStd itemQStd ["1.2.3"] prefsStd Language.Rust none
    rfl (by decide)

end Dependi

namespace Dependi

/-! ### C1: the classification decision sequence -/

/-- C1: with no error, the classification follows the forward-only decision
sequence — invalid range gives `ERROR`; else `versions[0] != maxSatisfying`
gives `COMP`/`INCOMP` by `satisfies`; else `COMP`. -/
theorem C1_classification (esc : String → String)
    (cv : Option String → List String → Bool × Option String) (vr : Option String → Bool)
    (item : Item) (versions : List String) (prefs : DecorationPreferences) (lang : Language)
    (vuln : Option VulnMap) (hne : versions ≠ []) :
    (decoration esc cv vr item versions prefs lang vuln none).type =
      (if ¬ vr (normalizedValue item) then DecoType.ERROR
       else if some (versions.headD "") ≠ (cv (normalizedValue item) versions).2 then
         (if (cv (normalizedValue item) versions).1 then DecoType.COMP else DecoType.INCOMP)
       else DecoType.COMP) := by
  rw [decoration_type_none]
  obtain ⟨v, t, rfl⟩ : ∃ v t, versions = v :: t := by
    cases versions with
    | nil => exact absurd rfl hne
    | cons v t => exact ⟨v, t, rfl⟩
  cases hm : (cv (normalizedValue item) (v :: t)).2 with
  | none => simp [strictNe]
  | some m => simp [strictNe, bne_iff_ne]

/-- C1 witness: the spec's own scenario (`"^1.0.0"` against
`["2.0.0", "1.5.0", "1.0.0"]`, satisfied with maximum `"1.5.0"`). -/
theorem C1_witness :
    (decoration id cvStd vrStd itemStd ["2.0.0", "1.5.0", "1.0.0"] prefsStd Language.Rust
        none none).type =
      (if ¬ vrStd (normalizedValue itemStd) then DecoType.ERROR
       else if some ((["2.0.0", "1.5.0", "1.0.0"] : List String).headD "")
           ≠ (cvStd (normalizedValue itemStd) ["2.0.0", "1.5.0", "1.0.0"]).2 then
         (if (cvStd (normalizedValue itemStd) ["2.0.0", "1.5.0", "1.0.0"]).1 then DecoType.COMP
          else DecoType.INCOMP)
       else DecoType.COMP) :=
  C1_classification id cvStd vrStd itemStd ["2.0.0", "1.5.0", "1.0.0"] prefsStd Language.Rust
    none (by decide)

end Dependi

namespace Dependi

/-! ### C3: the error bypass -/

/-- Folding string append from an arbitrary seed factors the seed out. -/
theorem string_foldl_append (l : List String) (s : String) :
    l.foldl (fun r t => r ++ t) s = s ++ l.foldl (fun r t => r ++ t) "" := by
  induction l generalizing s with
  | nil => simp [String.append_empty]
  | cons a l ih =>
    rw [List.foldl_cons, List.foldl_cons, ih (s ++ a), ih ("" ++ a)]
    simp [String.append_assoc, String.empty_append]

/-- A fold of value-appending steps appends the join of the per-element
strings (generic over the step, used for `formatError` and
`appendVersions`). -/
theorem foldl_append_value {α : Type} (g : α → String)
    (step : MarkdownString → α → MarkdownString)
    (hstep : ∀ m a, step m a = { m with value := m.value ++ g a }) (l : List α)
    (m : MarkdownString) :
    l.foldl step m = { m with value := m.value ++ String.join (l.map g) } := by
  induction l generalizing m with
  | nil => simp [String.join]
  | cons a l ih =>
    rw [List.foldl_cons, hstep, ih]
    simp only [String.join, List.map_cons, List.foldl_cons]
    rw [string_foldl_append (List.map g l) ("" ++ g a)]
    simp [String.append_assoc, String.empty_append]

/-- `formatError` produces the Errors heading plus one escaped bullet per
non-empty segment. -/
theorem formatError_eq (esc : String → String) (e : String) :
    formatError esc e =
      { value := "#### Errors " ++ "\n" ++
          String.join (((e.splitOn "\n").filter (fun s => s != "")).map
            (fun p => "* " ++ esc p.trim ++ "\n")),
        isTrusted := false } := by
  unfold formatError
  rw [foldl_append_value (fun p => "* " ++ esc p.trim ++ "\n") _
    (fun m a => by
      simp [MarkdownString.appendMarkdown, MarkdownString.appendText, String.append_assoc])]
  simp [MarkdownString.appendMarkdown, String.append_assoc]

/-- C3 counterexample: with a non-empty error supplied, the inline render
text is not the `errorText` template with `${version}` substituted — it is
left empty (the content-text assignment sits in the no-error branch). -/
theorem C3_counterexample :
    (decoration id cvStd vrStd itemStd ["1.0.0"] prefsStd Language.Rust none
        (some "boom")).contentText
      ≠ jsReplaceFirst prefsStd.errorText "${version}" "1.0.0" := by
  decide

/-- C3 amended: a non-empty error forces `ERROR`, the hover document is the
Errors heading with one trimmed, escaped bullet per non-empty
newline-separated segment — and the inline render text is the empty string
(not the `errorText` template). -/
theorem C3_error_bypass (esc : String → String)
    (cv : Option String → List String → Bool × Option String) (vr : Option String → Bool)
    (item : Item) (versions : List String) (prefs : DecorationPreferences) (lang : Language)
    (vuln : Option VulnMap) (e : String) (he : e ≠ "") :
    (decoration esc cv vr item versions prefs lang vuln (some e)).type = DecoType.ERROR ∧
    (decoration esc cv vr item versions prefs lang vuln (some e)).contentText = "" ∧
    (decoration esc cv vr item versions prefs lang vuln (some e)).edits = [] ∧
    (decoration esc cv vr item versions prefs lang vuln (some e)).saves = 0 ∧
    (decoration esc cv vr item versions prefs lang vuln (some e)).hoverMessage.value =
      "#### Errors " ++ "\n" ++
        String.join (((e.splitOn "\n").filter (fun s => s != "")).map
          (fun p => "* " ++ esc p.trim ++ "\n")) := by
  rw [decoration_some_error esc cv vr item versions prefs lang vuln e he]
  refine ⟨rfl, rfl, rfl, rfl, ?_⟩
  rw [formatError_eq]

/-- C3 witness: the two-segment error `"boom\n line2 "` renders two trimmed
bullets and empty inline text. -/
theorem C3_witness :
    (decoration id cvStd vrStd itemStd ["1.0.0"] prefsStd Language.Rust none
        (some "boom\n line2 ")).type = DecoType.ERROR ∧
    (decoration id cvStd vrStd itemStd ["1.0.0"] prefsStd Language.Rust none
        (some "boom\n line2 ")).contentText = "" ∧
    (decoration id cvStd vrStd itemStd ["1.0.0"] prefsStd Language.Rust none
        (some "boom\n line2 ")).edits = [] ∧
    (decoration id cvStd vrStd itemStd ["1.0.0"] prefsStd Language.Rust none
        (some "boom\n line2 ")).saves = 0 ∧
    (decoration id cvStd vrStd itemStd ["1.0.0"] prefsStd Language.Rust none
        (some "boom\n line2 ")).hoverMessage.value =
      "#### Errors " ++ "\n" ++
        String.join ((("boom\n line2 ".splitOn "\n").filter (fun s => s != "")).map
          (fun p => "* " ++ id p.trim ++ "\n")) :=
  C3_error_bypass id cvStd vrStd itemStd ["1.0.0"] prefsStd Language.Rust none
    "boom\n line2 " (by decide)

end Dependi

namespace Dependi

/-! ### C7: the vulnerability suffix of the inline text -/

/-- C7 counterexample: `checkVersion` resolves `"^1.0.0"` to maximum
satisfying version `"1.5.0"`, which has two advisories in the map — yet the
inline text carries no vulnerability suffix, because the code looks the map
up by the normalized declared value (`"^1.0.0"`), not the resolved version. -/
theorem C7_counterexample :
    (cvStd (normalizedValue itemStd) ["2.0.0", "1.5.0", "1.0.0"]).2 = some "1.5.0" ∧
    vulnGet (some vuln15Std) (some "1.5.0") = some ["OSV-1", "OSV-2"] ∧
    (decoration id cvStd vrStd itemStd ["2.0.0", "1.5.0", "1.0.0"] prefsStd Language.Rust
        (some vuln15Std) none).contentText
      ≠ jsReplaceFirst (getContentText prefsStd DecoType.COMP) "${version}" "2.0.0"
          ++ "\t" ++ jsReplaceFirst prefsStd.vulnText "${count}" (natToStr 2) := by
  refine ⟨rfl, rfl, ?_⟩
  decide

/-- C7 amended: the vulnerability lookup key for the inline text is the
normalized **declared** value; when that key has `n ≥ 1` advisories, the
inline text is the state template (with `${version}` substituted by
`versions[0]`) followed by a tab and `vulnText` with `${count}` substituted
by `n`. -/
theorem C7_vuln_inline (esc : String → String)
    (cv : Option String → List String → Bool × Option String) (vr : Option String → Bool)
    (item : Item) (versions : List String) (prefs : DecorationPreferences) (lang : Language)
    (vuln : Option VulnMap) (l : List String)
    (hv : vulnGet vuln (normalizedValue item) = some l) (hl : l ≠ []) :
    (decoration esc cv vr item versions prefs lang vuln none).contentText =
      jsReplaceFirst
          (getContentText prefs (decoration esc cv vr item versions prefs lang vuln none).type)
          "${version}" (versions.headD "undefined")
        ++ "\t" ++ jsReplaceFirst prefs.vulnText "${count}" (natToStr l.length) := by
  rw [decoration_contentText_none, hv]
  have hlen : l.length > 0 := List.length_pos.mpr hl
  simp [hlen]

/-- C7 witness: the spec scenario with declared value `"1.5.0"` (equal to the
resolved version, so the lookup hits) appends count `2`. -/
theorem C7_witness :
    (decoration id cvStd vrStd item15Std ["2.0.0", "1.5.0", "1.0.0"] prefsStd Language.Rust
        (some vuln15Std) none).contentText =
      jsReplaceFirst
          (getContentText prefsStd
            (decoration id cvStd vrStd item15Std ["2.0.0", "1.5.0", "1.0.0"] prefsStd
              Language.Rust (some vuln15Std) none).type)
          "${version}" ((["2.0.0", "1.5.0", "1.0.0"] : List String).headD "undefined")
        ++ "\t" ++ jsReplaceFirst prefsStd.vulnText "${count}" (natToStr 2) :=
  C7_vuln_inline id cvStd vrStd item15Std ["2.0.0", "1.5.0", "1.0.0"] prefsStd Language.Rust
    (some vuln15Std) ["OSV-1", "OSV-2"] (by decide) (by decide)

end Dependi

namespace Dependi

/-! ### C8: the Versions section of the hover document -/

/-- `appendVulnerabilities` only appends `vulnSectionStr`. -/
theorem appendVulnerabilities_eq (h : MarkdownString) (vuln : Option VulnMap)
    (version : Option String) :
    appendVulnerabilities h vuln version =
      { h with value := h.value ++ vulnSectionStr vuln version } := by
  unfold appendVulnerabilities vulnSectionStr
  cases hv : vulnGet vuln version with
  | none => simp [String.append_empty]
  | some l =>
    by_cases hl : l = []
    · simp [hl, String.append_empty]
    · simp only [hl, if_neg, MarkdownString.appendMarkdown, String.append_assoc, ite_not,
        if_false, ne_eq, not_false_iff, if_true]

/-- `appendVersions` appends the joined bullet lines. -/
theorem appendVersions_eq (h : MarkdownString) (versions : List String) (item : Item)
    (maxSatisfying : String) (vuln : Option VulnMap) (prefs : DecorationPreferences)
    (lang : Language) :
    appendVersions h versions item maxSatisfying vuln prefs lang =
      { h with value := h.value ++ String.join (versions.enum.map
          (fun p => "\n * " ++ versionBullet item maxSatisfying vuln prefs lang p.1 p.2)) } := by
  unfold appendVersions
  have hs : ∀ (m : MarkdownString) (p : Nat × String),
      ((m.appendMarkdown "\n * ").appendMarkdown
        (versionBullet item maxSatisfying vuln prefs lang p.1 p.2)) =
      { m with value := m.value ++
          ("\n * " ++ versionBullet item maxSatisfying vuln prefs lang p.1 p.2) } := by
    intro m p
    simp [MarkdownString.appendMarkdown, String.append_assoc]
  exact foldl_append_value _ _ hs versions.enum h

/-- A bullet renders bold exactly when its version equals the (defaulted)
maximum satisfying version. -/
theorem startsBold_versionBullet (item : Item) (maxSatisfying : String) (vuln : Option VulnMap)
    (prefs : DecorationPreferences) (lang : Language) (i : Nat) (v : String) :
    startsBold (versionBullet item maxSatisfying vuln prefs lang i v) =
      decide (v = maxSatisfying) := by
  dsimp only [versionBullet, startsBold]
  simp only [String.data_append, List.append_assoc]
  by_cases hc : v = maxSatisfying
  · rw [if_pos hc]
    have hb : ("**" : String).data = '*' :: '*' :: [] := rfl
    rw [hb]
    simp [hc]
  · rw [if_neg hc]
    have hb : ("" : String).data = [] := rfl
    rw [hb]
    simp [hc]

/-- Second components of an enumeration are members of the list. -/
theorem snd_mem_of_enumFrom {α : Type} (l : List α) (n : Nat) (p : Nat × α)
    (h : p ∈ l.enumFrom n) : p.2 ∈ l := by
  induction l generalizing n with
  | nil => simp [List.enumFrom] at h
  | cons a t ih =>
    simp only [List.enumFrom, List.mem_cons] at h
    rcases h with h | h
    · simp [h]
    · exact List.mem_cons_of_mem a (ih (n + 1) h)

/-- Counting positions whose entry equals `x` over an enumeration counts the
occurrences of `x`. -/
theorem countP_enumFrom_eq_count (x : String) (l : List String) (n : Nat) :
    (l.enumFrom n).countP (fun p => decide (p.2 = x)) = l.count x := by
  induction l generalizing n with
  | nil => simp [List.enumFrom]
  | cons a t ih =>
    simp only [List.enumFrom, List.countP_cons, List.count_cons, ih (n + 1)]
    have : (a == x) = decide (a = x) := by
      cases hb : a == x
      · simp only [beq_eq_false_iff_ne] at hb
        simp [hb]
      · simp only [beq_iff_eq] at hb
        simp [hb]
    simp [this]

/-- A list is an infix of itself extended on the right. -/
theorem infix_self_append {α : Type} (x t : List α) : x <:+: x ++ t :=
  ⟨[], t, by simp⟩

/-- An infix of a list is an infix of any left-extension. -/
theorem infix_append_left {α : Type} (s : List α) {x t : List α} (h : x <:+: t) :
    x <:+: s ++ t := by
  obtain ⟨u, w, hw⟩ := h
  exact ⟨s ++ u, w, by rw [← hw]; simp [List.append_assoc]⟩

/-- The docs-link slot is an infix of its bullet when present. -/
theorem docsLink_infix_versionBullet (item : Item) (maxSatisfying : String)
    (vuln : Option VulnMap) (prefs : DecorationPreferences) (lang : Language)
    (i : Nat) (v : String) (hd : i = 0 ∨ v = maxSatisfying) :
    (getDocsLink lang item.key v).data <:+:
      (versionBullet item maxSatisfying vuln prefs lang i v).data := by
  dsimp only [versionBullet]
  rw [if_pos hd]
  simp only [String.data_append, List.append_assoc]
  exact infix_append_left _ (infix_append_left _ (infix_append_left _ (infix_append_left _
    (infix_append_left _ (infix_append_left _ (infix_append_left _ (infix_append_left _
      (infix_self_append _ _))))))))

end Dependi

namespace Dependi

/-- C8: with no error, the hover document carries one bullet per entry of
`versions` in order; exactly one bullet is bold (the one equal to
`maxSatisfying`) or none when `maxSatisfying` is absent; and the first entry
and the `maxSatisfying` entry carry the ecosystem documentation link.
Hypotheses: `maxSatisfying`, when present, occurs exactly once in `versions`
(it is one of the known versions, which are distinct), and the version
strings are non-empty when it is absent. -/
theorem C8_hover_versions (esc : String → String)
    (cv : Option String → List String → Bool × Option String) (vr : Option String → Bool)
    (item : Item) (versions : List String) (prefs : DecorationPreferences) (lang : Language)
    (vuln : Option VulnMap)
    (hcount : ∀ m, (cv (normalizedValue item) versions).2 = some m → versions.count m = 1)
    (hnone : (cv (normalizedValue item) versions).2 = none → "" ∉ versions) :
    ((decoration esc cv vr item versions prefs lang vuln none).hoverMessage.value
      = vulnSectionStr vuln (normalizedValue item) ++ "#### Versions" ++ getLinks lang item.key
        ++ String.join (versions.enum.map (fun p => "\n * " ++
            versionBullet item (((cv (normalizedValue item) versions).2).getD "") vuln prefs
              lang p.1 p.2)))
    ∧ (versions.enum.map (fun p =>
         versionBullet item (((cv (normalizedValue item) versions).2).getD "") vuln prefs
           lang p.1 p.2)).length = versions.length
    ∧ (versions.enum.map (fun p =>
         versionBullet item (((cv (normalizedValue item) versions).2).getD "") vuln prefs
           lang p.1 p.2)).countP startsBold
        = (if (cv (normalizedValue item) versions).2 = none then 0 else 1)
    ∧ (∀ p ∈ versions.enum,
        (startsBold (versionBullet item (((cv (normalizedValue item) versions).2).getD "")
            vuln prefs lang p.1 p.2) = true
          ↔ (cv (normalizedValue item) versions).2 = some p.2))
    ∧ (∀ p ∈ versions.enum, (p.1 = 0 ∨ (cv (normalizedValue item) versions).2 = some p.2) →
        (getDocsLink lang item.key p.2).data <:+:
          (versionBullet item (((cv (normalizedValue item) versions).2).getD "") vuln prefs
            lang p.1 p.2).data) := by
  refine ⟨?_, by simp, ?_, ?_, ?_⟩
  · rw [decoration_hover_none, appendVersions_eq]
    simp [MarkdownString.appendMarkdown, appendVulnerabilities_eq, String.empty_append,
      String.append_assoc]
  · rw [List.countP_map]
    have hcg : (versions.enum).countP
        (startsBold ∘ fun p => versionBullet item
          (((cv (normalizedValue item) versions).2).getD "") vuln prefs lang p.1 p.2)
        = (versions.enum).countP
            (fun p => decide (p.2 = ((cv (normalizedValue item) versions).2).getD "")) := by
      refine List.countP_congr ?_
      intro p _
      simp only [Function.comp_apply, startsBold_versionBullet]
    rw [hcg]
    have he : versions.enum = versions.enumFrom 0 := rfl
    rw [he, countP_enumFrom_eq_count]
    cases hm : (cv (normalizedValue item) versions).2 with
    | none =>
      simp only [Option.getD_none]
      rw [List.count_eq_zero.mpr (hnone hm)]
      simp
    | some m =>
      simp only [Option.getD_some]
      rw [hcount m hm]
      simp
  · intro p hp
    rw [startsBold_versionBullet]
    cases hm : (cv (normalizedValue item) versions).2 with
    | none =>
      simp only [Option.getD_none]
      have hmem : p.2 ∈ versions := snd_mem_of_enumFrom versions 0 p hp
      have hne : p.2 ≠ "" := fun hh => (hnone hm) (hh ▸ hmem)
      simp [hne]
    | some m =>
      simp only [Option.getD_some]
      constructor
      · intro hb
        have : p.2 = m := by simpa using hb
        rw [this]
      · intro hb
        have : m = p.2 := by simpa using hb
        simp [this]
  · intro p hp hcond
    refine docsLink_infix_versionBullet item _ vuln prefs lang p.1 p.2 ?_
    rcases hcond with h0 | hmax
    · exact Or.inl h0
    · right
      rw [hmax]
      rfl

/-- C8 witness: the spec scenario — three versions, maximum satisfying
`"1.5.0"`, Rust ecosystem. -/
theorem C8_witness :
    ((decoration id cvStd vrStd itemStd ["2.0.0", "1.5.0", "1.0.0"] prefsStd Language.Rust
        none none).hoverMessage.value
      = vulnSectionStr none (normalizedValue itemStd) ++ "#### Versions"
        ++ getLinks Language.Rust itemStd.key
        ++ String.join ((["2.0.0", "1.5.0", "1.0.0"] : List String).enum.map (fun p => "\n * " ++
            versionBullet itemStd
              (((cvStd (normalizedValue itemStd) ["2.0.0", "1.5.0", "1.0.0"]).2).getD "") none
              prefsStd Language.Rust p.1 p.2)))
    ∧ ((["2.0.0", "1.5.0", "1.0.0"] : List String).enum.map (fun p =>
         versionBullet itemStd
           (((cvStd (normalizedValue itemStd) ["2.0.0", "1.5.0", "1.0.0"]).2).getD "") none
           prefsStd Language.Rust p.1 p.2)).length = (["2.0.0", "1.5.0", "1.0.0"] : List String).length
    ∧ ((["2.0.0", "1.5.0", "1.0.0"] : List String).enum.map (fun p =>
         versionBullet itemStd
           (((cvStd (normalizedValue itemStd) ["2.0.0", "1.5.0", "1.0.0"]).2).getD "") none
           prefsStd Language.Rust p.1 p.2)).countP startsBold
        = (if (cvStd (normalizedValue itemStd) ["2.0.0", "1.5.0", "1.0.0"]).2 = none then 0 else 1)
    ∧ (∀ p ∈ (["2.0.0", "1.5.0", "1.0.0"] : List String).enum,
        (startsBold (versionBullet itemStd
            (((cvStd (normalizedValue itemStd) ["2.0.0", "1.5.0", "1.0.0"]).2).getD "") none
            prefsStd Language.Rust p.1 p.2) = true
          ↔ (cvStd (normalizedValue itemStd) ["2.0.0", "1.5.0", "1.0.0"]).2 = some p.2))
    ∧ (∀ p ∈ (["2.0.0", "1.5.0", "1.0.0"] : List String).enum,
        (p.1 = 0 ∨ (cvStd (normalizedValue itemStd) ["2.0.0", "1.5.0", "1.0.0"]).2 = some p.2) →
        (getDocsLink Language.Rust itemStd.key p.2).data <:+:
          (versionBullet itemStd
            (((cvStd (normalizedValue itemStd) ["2.0.0", "1.5.0", "1.0.0"]).2).getD "") none
            prefsStd Language.Rust p.1 p.2).data) :=
  C8_hover_versions id cvStd vrStd itemStd ["2.0.0", "1.5.0", "1.0.0"] prefsStd Language.Rust
    none (by intro m hm; cases hm; decide) (by intro hm; cases hm)

end Dependi

namespace Dependi

/-! ### C10: the command payload round-trip -/

/-- `Char.toNat` after `Char.ofNat` for small code points. -/
theorem toNat_ofNat_small (n : Nat) (h : n < 55296) : (Char.ofNat n).toNat = n := by
  unfold Char.ofNat
  split
  · rfl
  · next hn => exact absurd (Or.inl h) hn

/-- Percent-decoding inverts the hex digits produced by `percentEncodeByte`. -/
theorem hexVal_hexDigitChar (k : Nat) (h : k < 16) : hexVal (hexDigitChar k) = some k := by
  interval_cases k <;> decide

/-- Decoding passes a non-`%` character through. -/
theorem percentDecode_cons (c : Char) (rest : List Char) (h : c ≠ '%') :
    percentDecode (c :: rest) = c :: percentDecode rest := by
  cases rest with
  | nil => simp [percentDecode, h]
  | cons a t =>
    cases t with
    | nil => simp [percentDecode, h]
    | cons b u => simp [percentDecode, h]

/-- Decoding a well-formed escape triple. -/
theorem percentDecode_escape (a b : Nat) (h1 h2 : Char) (rest : List Char)
    (ha : hexVal h1 = some a) (hb : hexVal h2 = some b) :
    percentDecode ('%' :: h1 :: h2 :: rest) = Char.ofNat (16 * a + b) :: percentDecode rest := by
  simp [percentDecode, ha, hb]

/-- Percent-decoding inverts `encodeURI` on ASCII character lists. -/
theorem percentDecode_encode_ascii (l : List Char) (h : ∀ c ∈ l, c.toNat < 128) :
    percentDecode ((l.map encodeURIChar).flatten) = l := by
  induction l with
  | nil => simp [percentDecode]
  | cons c t ih =>
    have hc : c.toNat < 128 := h c (List.mem_cons_self c t)
    have ht : ∀ x ∈ t, x.toNat < 128 := fun x hx => h x (List.mem_cons_of_mem c hx)
    rw [List.map_cons, List.flatten_cons]
    by_cases hu : uriUnescaped c = true
    · have he : encodeURIChar c = [c] := by simp [encodeURIChar, hu]
      have hpc : c ≠ '%' := by
        intro hh
        rw [hh] at hu
        exact absurd hu (by decide)
      rw [he, List.cons_append, List.nil_append, percentDecode_cons c _ hpc, ih ht]
    · have he : encodeURIChar c =
          '%' :: hexDigitChar (c.toNat / 16) :: hexDigitChar (c.toNat % 16) :: [] := by
        simp only [encodeURIChar, hu, if_false, Bool.false_eq_true]
        rw [utf8Bytes, if_pos hc]
        rfl
      rw [he]
      have hd1 : c.toNat / 16 < 16 := by omega
      have hd2 : c.toNat % 16 < 16 := by omega
      rw [List.cons_append, List.cons_append, List.cons_append, List.nil_append,
        percentDecode_escape (c.toNat / 16) (c.toNat % 16) _ _ _
          (hexVal_hexDigitChar _ hd1) (hexVal_hexDigitChar _ hd2)]
      have : 16 * (c.toNat / 16) + c.toNat % 16 = c.toNat := by omega
      rw [this, Char.ofNat_toNat, ih ht]

end Dependi

namespace Dependi

/-- Consuming one escaped character of a JSON string body. -/
theorem parseJsonStringAux_step (c : Char) (t : List Char) :
    parseJsonStringAux (jsonEscapeChar c ++ t) =
      (match parseJsonStringAux t with
       | some (s, r) => some (⟨c :: s.data⟩, r)
       | none => none) := by
  have hbq : backslashChar ≠ quoteChar := by decide
  by_cases h1 : c = quoteChar
  · subst h1
    have hu : unescapeChar quoteChar = quoteChar := by decide
    simp [jsonEscapeChar, parseJsonStringAux, hbq, hu]
  · by_cases h2 : c = backslashChar
    · subst h2
      have hu : unescapeChar backslashChar = backslashChar := by decide
      simp [jsonEscapeChar, parseJsonStringAux, hbq, hu, h1]
    · by_cases h3 : c = '\n'
      · subst h3
        simp [jsonEscapeChar, parseJsonStringAux, hbq, unescapeChar]
      · by_cases h4 : c = '\r'
        · subst h4
          simp [jsonEscapeChar, parseJsonStringAux, hbq, unescapeChar]
        · by_cases h5 : c = '\t'
          · subst h5
            simp [jsonEscapeChar, parseJsonStringAux, hbq, unescapeChar]
          · have hec : jsonEscapeChar c = [c] := by
              simp [jsonEscapeChar, h1, h2, h3, h4, h5]
            rw [hec, List.cons_append, List.nil_append]
            conv_lhs => rw [parseJsonStringAux.eq_def]
            simp [h1, h2]

/-- Parsing the escaped body plus closing quote recovers the string. -/
theorem parseJsonStringAux_round (l t : List Char) :
    parseJsonStringAux ((l.map jsonEscapeChar).flatten ++ (quoteChar :: t)) =
      some (⟨l⟩, t) := by
  induction l with
  | nil =>
    rw [List.map_nil, List.flatten_nil, List.nil_append]
    conv_lhs => rw [parseJsonStringAux.eq_def]
    simp
  | cons c cs ih =>
    rw [List.map_cons, List.flatten_cons, List.append_assoc, parseJsonStringAux_step, ih]

end Dependi

namespace Dependi

/-- The decimal digit characters. -/
theorem digitChar_isDigit (k : Nat) (h : k < 10) : (digitChar k).isDigit = true := by
  interval_cases k <;> decide

/-- Decimal digit characters are ASCII. -/
theorem digitChar_toNat (k : Nat) (h : k < 10) : (digitChar k).toNat = 48 + k := by
  interval_cases k <;> decide

/-- `natToChars` produces only decimal digits. -/
theorem natToChars_digits (n : Nat) : ∀ c ∈ natToChars n, c.isDigit = true := by
  induction n using Nat.strong_induction_on with
  | _ n ih =>
    rw [natToChars]
    by_cases h : n < 10
    · rw [if_pos h]
      intro c hc
      rw [List.mem_singleton] at hc
      rw [hc]
      exact digitChar_isDigit n h
    · rw [if_neg h]
      intro c hc
      rcases List.mem_append.mp hc with hm | hm
      · exact ih (n / 10) (Nat.div_lt_self (by omega) (by omega)) c hm
      · rw [List.mem_singleton] at hm
        rw [hm]
        exact digitChar_isDigit (n % 10) (Nat.mod_lt n (by omega))

/-- Decimal digits are ASCII. -/
theorem isDigit_toNat_lt (c : Char) (h : c.isDigit = true) : c.toNat < 128 := by
  simp only [Char.isDigit, Bool.and_eq_true, decide_eq_true_eq] at h
  have h2 : c.val.toNat ≤ (57 : UInt32).toNat := h.2
  have h3 : (57 : UInt32).toNat = 57 := rfl
  simp only [Char.toNat]
  omega

/-- `natToChars` never produces the empty list. -/
theorem natToChars_ne_nil (n : Nat) : natToChars n ≠ [] := by
  rw [natToChars]
  by_cases h : n < 10
  · rw [if_pos h]
    simp
  · rw [if_neg h]
    simp

/-- Digit-valuation of `natToChars` recovers the number (generalized seed). -/
theorem natToChars_foldl (n : Nat) : ∀ a : Nat,
    (natToChars n).foldl (fun a c => 10 * a + (c.toNat - 48)) a =
      a * 10 ^ (natToChars n).length + n := by
  induction n using Nat.strong_induction_on with
  | _ n ih =>
    intro a
    rw [natToChars]
    by_cases h : n < 10
    · rw [if_pos h]
      simp [digitChar_toNat n h]
      omega
    · rw [if_neg h]
      rw [List.foldl_append, List.foldl_cons, List.foldl_nil,
        ih (n / 10) (Nat.div_lt_self (by omega) (by omega)) a,
        digitChar_toNat (n % 10) (Nat.mod_lt n (by omega))]
      simp [List.length_append]
      ring_nf
      omega

/-- `takeWhile` passes an all-satisfying prefix through. -/
theorem takeWhile_append_all (p : Char → Bool) (a rest : List Char)
    (h : ∀ c ∈ a, p c = true) :
    (a ++ rest).takeWhile p = a ++ rest.takeWhile p := by
  induction a with
  | nil => simp
  | cons c t ih =>
    have hc : p c = true := h c (List.mem_cons_self c t)
    simp only [List.cons_append, List.takeWhile_cons, hc, if_true]
    rw [ih (fun x hx => h x (List.mem_cons_of_mem c hx))]

/-- `dropWhile` drops an all-satisfying prefix. -/
theorem dropWhile_append_all (p : Char → Bool) (a rest : List Char)
    (h : ∀ c ∈ a, p c = true) :
    (a ++ rest).dropWhile p = rest.dropWhile p := by
  induction a with
  | nil => simp
  | cons c t ih =>
    have hc : p c = true := h c (List.mem_cons_self c t)
    simp only [List.cons_append, List.dropWhile_cons, hc, if_true]
    exact ih (fun x hx => h x (List.mem_cons_of_mem c hx))

/-- Parsing the decimal digits of `n` followed by a non-digit remainder. -/
theorem parseNat_round (n : Nat) (rest : List Char)
    (hh : ∀ d, rest.head? = some d → d.isDigit = false) :
    parseNat (natToChars n ++ rest) = some (n, rest) := by
  have htw : rest.takeWhile Char.isDigit = [] := by
    cases rest with
    | nil => rfl
    | cons d t =>
      have := hh d rfl
      simp [List.takeWhile_cons, this]
  have hdw : rest.dropWhile Char.isDigit = rest := by
    cases rest with
    | nil => rfl
    | cons d t =>
      have := hh d rfl
      simp [List.dropWhile_cons, this]
  unfold parseNat
  rw [takeWhile_append_all Char.isDigit _ _ (natToChars_digits n), htw, List.append_nil,
    dropWhile_append_all Char.isDigit _ _ (natToChars_digits n), hdw]
  rw [if_neg (natToChars_ne_nil n)]
  rw [natToChars_foldl n 0]
  simp

end Dependi

namespace Dependi

/-- The JSON serialization of a `ReplaceItem`, decomposed along the
boundaries the payload parser consumes. -/
theorem stringify_data_decomp (ri : ReplaceItem) :
    (stringifyReplaceItem ri).data =
      ("\x7b\"value\":\"" : String).data ++
        ((ri.value.data.map jsonEscapeChar).flatten ++ (quoteChar ::
          ((",\"range\":\x7b\"start\":\x7b\"line\":" : String).data ++
            (natToChars ri.range.start.line ++
              ((",\"character\":" : String).data ++
                (natToChars ri.range.start.character ++
                  (("\x7d,\"end\":\x7b\"line\":" : String).data ++
                    (natToChars ri.range.stop.line ++
                      ((",\"character\":" : String).data ++
                        (natToChars ri.range.stop.character ++
                          ("\x7d\x7d\x7d" : String).data)))))))))) := by
  simp [stringifyReplaceItem, jsonString, stringifyRange, stringifyPosition, natToStr,
    String.data_append, List.append_assoc, quoteChar]

/-- `natToChars` produces only ASCII characters. -/
theorem natToChars_ascii (n : Nat) : ∀ c ∈ natToChars n, c.toNat < 128 :=
  fun c hc => isDigit_toNat_lt c (natToChars_digits n c hc)

/-- ASCII-ness is preserved by list append. -/
theorem ascii_append (a b : List Char) (ha : ∀ c ∈ a, c.toNat < 128)
    (hb : ∀ c ∈ b, c.toNat < 128) : ∀ c ∈ a ++ b, c.toNat < 128 :=
  fun c hc => (List.mem_append.mp hc).elim (ha c) (hb c)

/-- ASCII-ness is preserved by cons. -/
theorem ascii_cons (q : Char) (b : List Char) (hq : q.toNat < 128)
    (hb : ∀ c ∈ b, c.toNat < 128) : ∀ c ∈ q :: b, c.toNat < 128 := by
  intro c hc
  rcases List.mem_cons.mp hc with rfl | hc
  · exact hq
  · exact hb c hc

/-- JSON escaping of an ASCII character stays ASCII. -/
theorem jsonEscapeChar_ascii (x : Char) (hx : x.toNat < 128) :
    ∀ c ∈ jsonEscapeChar x, c.toNat < 128 := by
  by_cases h1 : x = quoteChar
  · subst h1
    decide
  · by_cases h2 : x = backslashChar
    · subst h2
      decide
    · by_cases h3 : x = '\n'
      · subst h3
        decide
      · by_cases h4 : x = '\r'
        · subst h4
          decide
        · by_cases h5 : x = '\t'
          · subst h5
            decide
          · have hje : jsonEscapeChar x = [x] := by
              simp [jsonEscapeChar, h1, h2, h3, h4, h5]
            rw [hje]
            intro c hc
            rw [List.mem_singleton] at hc
            rw [hc]
            exact hx

/-- The serialized payload of an ASCII-valued `ReplaceItem` is ASCII. -/
theorem stringify_ascii (ri : ReplaceItem) (hval : ∀ c ∈ ri.value.data, c.toNat < 128) :
    ∀ c ∈ (stringifyReplaceItem ri).data, c.toNat < 128 := by
  rw [stringify_data_decomp]
  have hflat : ∀ c ∈ (ri.value.data.map jsonEscapeChar).flatten, c.toNat < 128 := by
    intro c hc
    rcases List.mem_flatten.mp hc with ⟨seg, hseg, hcseg⟩
    rcases List.mem_map.mp hseg with ⟨x, hx, rfl⟩
    exact jsonEscapeChar_ascii x (hval x hx) c hcseg
  refine ascii_append _ _ (by decide) (ascii_append _ _ hflat (ascii_cons _ _ (by decide)
    (ascii_append _ _ (by decide) (ascii_append _ _ (natToChars_ascii _)
      (ascii_append _ _ (by decide) (ascii_append _ _ (natToChars_ascii _)
        (ascii_append _ _ (by decide) (ascii_append _ _ (natToChars_ascii _)
          (ascii_append _ _ (by decide) (ascii_append _ _ (natToChars_ascii _)
            (by decide)))))))))))

/-- Consuming an expected literal prefix. -/
theorem parseLit_append (pre : String) (rest : List Char) :
    parseLit pre (pre.data ++ rest) = some rest := by
  have h : pre.data.isPrefixOf (pre.data ++ rest) = true := by
    rw [List.isPrefixOf_iff_prefix]
    exact List.prefix_append _ _
  unfold parseLit
  rw [if_pos h, List.drop_left]

/-- Number parsing stops at the `,"character":` separator. -/
theorem parseNat_lit1 (n : Nat) (t : List Char) :
    parseNat (natToChars n ++ ((",\"character\":" : String).data ++ t)) =
      some (n, (",\"character\":" : String).data ++ t) :=
  parseNat_round n _ (fun d hd => by
    have hx : (((",\"character\":" : String).data ++ t)).head? = some ',' := rfl
    rw [hx] at hd
    cases hd
    decide)

/-- Number parsing stops at the `},"end":{"line":` separator. -/
theorem parseNat_lit2 (n : Nat) (t : List Char) :
    parseNat (natToChars n ++ (("\x7d,\"end\":\x7b\"line\":" : String).data ++ t)) =
      some (n, ("\x7d,\"end\":\x7b\"line\":" : String).data ++ t) :=
  parseNat_round n _ (fun d hd => by
    have hx : ((("\x7d,\"end\":\x7b\"line\":" : String).data ++ t)).head? = some '\x7d' := rfl
    rw [hx] at hd
    cases hd
    decide)

/-- Number parsing stops at the closing braces. -/
theorem parseNat_lit3 (n : Nat) :
    parseNat (natToChars n ++ ("\x7d\x7d\x7d" : String).data) =
      some (n, ("\x7d\x7d\x7d" : String).data) :=
  parseNat_round n _ (fun d hd => by
    have hx : (("\x7d\x7d\x7d" : String).data).head? = some '\x7d' := rfl
    rw [hx] at hd
    cases hd
    decide)

/-- The payload round-trip: URI-decoding and JSON-parsing the serialized,
URI-encoded `ReplaceItem` recovers it exactly (for ASCII version strings). -/
theorem decodePayload_stringify (ri : ReplaceItem)
    (hval : ∀ c ∈ ri.value.data, c.toNat < 128) :
    decodePayload (encodeURI (stringifyReplaceItem ri)) = some ri := by
  have hperc : percentDecode (encodeURI (stringifyReplaceItem ri)).data
      = (stringifyReplaceItem ri).data := by
    have he : (encodeURI (stringifyReplaceItem ri)).data
        = ((stringifyReplaceItem ri).data.map encodeURIChar).flatten := rfl
    rw [he, percentDecode_encode_ascii _ (stringify_ascii _ hval)]
  obtain ⟨v, ⟨⟨sl, sc⟩, ⟨el, ec⟩⟩⟩ := ri
  have hsndS : ∀ (a : String) (b : List Char), (a, b).2 = b := fun _ _ => rfl
  have hsndN : ∀ (a : Nat) (b : List Char), (a, b).2 = b := fun _ _ => rfl
  have h5 : parseLit "\x7d\x7d\x7d" (("\x7d\x7d\x7d" : String).data) = some [] := rfl
  unfold decodePayload
  rw [hperc, stringify_data_decomp]
  unfold parsePayload
  repeat rw [Option.bind_eq_bind]
  rw [parseLit_append, Option.some_bind]
  rw [parseJsonStringAux_round, Option.some_bind]
  dsimp only
  rw [parseLit_append, Option.some_bind]
  rw [parseNat_lit1, Option.some_bind]
  dsimp only
  rw [parseLit_append, Option.some_bind]
  rw [parseNat_lit2, Option.some_bind]
  dsimp only
  rw [parseLit_append, Option.some_bind]
  rw [parseNat_lit1, Option.some_bind]
  dsimp only
  rw [parseLit_append, Option.some_bind]
  rw [parseNat_lit3, Option.some_bind]
  dsimp only
  rw [h5, Option.some_bind]
  rfl

end Dependi

namespace Dependi

/-- C10: the embedded command payload round-trips — URI-decoding and
JSON-parsing the bullet's encoded payload yields a `ReplaceItem` carrying
exactly the clicked version string and the item's original range, and the
single-replace handler then writes exactly that version over exactly that
range (with one save). -/
theorem C10_payload_roundtrip (item : Item) (version : String)
    (hascii : ∀ c ∈ version.data, c.toNat < 128) (st : Status) (log : EditorLog)
    (hip : st.inProgress = false) :
    decodePayload (encodeURI (stringifyReplaceItem (bulletPayload item version)))
        = some (bulletPayload item version)
    ∧ (bulletPayload item version).value = version
    ∧ (bulletPayload item version).range = item.range
    ∧ replaceVersion true
        (decodePayload (encodeURI (stringifyReplaceItem (bulletPayload item version)))) st log
        = (st, { log with
                 edits := log.edits ++ [(item.range, version)]
                 saves := log.saves + 1 }) := by
  obtain ⟨k, vv, ⟨⟨a, b⟩, ⟨c, d⟩⟩, ln, eo, dr⟩ := item
  have hrt := decodePayload_stringify
    (bulletPayload ⟨k, vv, ⟨⟨a, b⟩, ⟨c, d⟩⟩, ln, eo, dr⟩ version) hascii
  refine ⟨hrt, rfl, rfl, ?_⟩
  rw [hrt]
  obtain ⟨ip, items⟩ := st
  simp only at hip
  subst hip
  simp [replaceVersion, bulletPayload]

/-- C10 witness: clicking `"1.5.0"` on the standard item decodes back and
writes `"1.5.0"` over the item's range. -/
theorem C10_witness :
    decodePayload (encodeURI (stringifyReplaceItem (bulletPayload itemStd "1.5.0")))
        = some (bulletPayload itemStd "1.5.0")
    ∧ (bulletPayload itemStd "1.5.0").value = "1.5.0"
    ∧ (bulletPayload itemStd "1.5.0").range = itemStd.range
    ∧ replaceVersion true
        (decodePayload (encodeURI (stringifyReplaceItem (bulletPayload itemStd "1.5.0"))))
        { inProgress := false, replaceItems := [] } { edits := [], saves := 0 }
        = ({ inProgress := false, replaceItems := [] },
           { edits := [] ++ [(itemStd.range, "1.5.0")], saves := 0 + 1 }) :=
  C10_payload_roundtrip itemStd "1.5.0" (by decide)
    { inProgress := false, replaceItems := [] } { edits := [], saves := 0 } rfl

end Dependi
